import Mathlib

/-!
Verification of the hyperbolic-PDE solver (schemes.py, tests.py, pde_solver_lib.py).

The state arrays of the numerical schemes are embedded as `List ℚ`; the
numpy element-wise array operations become `List.zipWith` / `List.map`,
and the numpy slices `u[2:]`, `u[:-2]`, `u[1:-1]` become
`u.drop 2`, `u.take (u.length - 2)`, `(u.drop 1).take (u.length - 2)`.
Fallible operations (Python code that raises on its inputs, such as the
zero-divisor Rankine-Hugoniot quotient or a missing "prime" entry in the
flux metadata) are embedded as `Option`-valued functions returning `none`
exactly where the Python code raises.
-/

/-- Element-wise sum of two arrays (numpy `a + b`). -/
def npAdd (a b : List ℚ) : List ℚ := List.zipWith (· + ·) a b

/-- Element-wise difference of two arrays (numpy `a - b`). -/
def npSub (a b : List ℚ) : List ℚ := List.zipWith (· - ·) a b

/-- Element-wise product of two arrays (numpy `a * b`). -/
def npMul (a b : List ℚ) : List ℚ := List.zipWith (· * ·) a b

/-- Multiplication of an array by a scalar (numpy `c * a`). -/
def smul (c : ℚ) (a : List ℚ) : List ℚ := a.map (fun x => c * x)

/-- Embedding of the `Function` wrapper of pde_solver_lib.py: the wrapped
scalar function together with the entries of its `data` dictionary that the
repository reads (`prime`, `isLinear`, `isQuadratic`, `canBeRiemannProblem`,
`ul`, `ur`, `x0`). A key absent from the Python dictionary is embedded as
`none` (respectively `false` for the flags, which Python reads with
`.get(...)` and tests for truthiness). -/
structure Function where
  func : ℚ → ℚ
  prime : Option (ℚ → ℚ)
  isLinear : Bool
  isQuadratic : Bool
  canBeRiemannProblem : Bool
  ul : Option ℚ
  ur : Option ℚ
  x0 : Option ℚ

/-- schemes.py, `LF_FD_centered(u, dt, dx, flux)`:
`0.5 * (u[2:] + u[:-2]) - 0.5 * dt_dx * (flux(u[2:]) - flux(u[:-2]))`. -/
def LF_FD_centered (u : List ℚ) (dt dx : ℚ) (flux : Function) : List ℚ :=
  let dt_dx := dt / dx
  npSub (smul (1/2) (npAdd (u.drop 2) (u.take (u.length - 2))))
        (smul ((1/2) * dt_dx)
              (npSub ((u.drop 2).map flux.func) ((u.take (u.length - 2)).map flux.func)))

/-- schemes.py: `LF_FD = LF_FD_centered`. -/
def LF_FD : List ℚ → ℚ → ℚ → Function → List ℚ := LF_FD_centered

/-- schemes.py, `LF_FV(u, dt, dx, flux)`: interface fluxes
`fluxes = 0.5 * (flux(u[:-1]) + flux(u[1:]) - dx_dt * (u[1:] - u[:-1]))`,
then `u[1:-1] - dt_dx * (fluxes[1:] - fluxes[:-1])`. -/
def LF_FV (u : List ℚ) (dt dx : ℚ) (flux : Function) : List ℚ :=
  let dt_dx := dt / dx
  let dx_dt := dx / dt
  let fluxes := smul (1/2)
    (npSub (npAdd ((u.take (u.length - 1)).map flux.func) ((u.drop 1).map flux.func))
           (smul dx_dt (npSub (u.drop 1) (u.take (u.length - 1)))))
  npSub ((u.drop 1).take (u.length - 2))
        (smul dt_dx (npSub (fluxes.drop 1) (fluxes.take (fluxes.length - 1))))

/-- schemes.py, `LW_FD(u, dt, dx, flux)`: reads `fprime = flux.data["prime"]`
(`none` when the key is missing, where Python raises `KeyError`), computes
`a = fprime(u)` on the whole array and returns
`u[1:-1] - 0.5 * dt_dx * (flux(u[2:]) - flux(u[:-2]))
 + 0.5 * dt_dx2 * a[1:-1] * (flux(u[2:]) - 2 * flux(u[1:-1]) + flux(u[:-2]))`. -/
def LW_FD (u : List ℚ) (dt dx : ℚ) (flux : Function) : Option (List ℚ) :=
  match flux.prime with
  | none => none
  | some fprime =>
    let dt_dx := dt / dx
    let dt_dx2 := dt_dx * dt_dx
    let a := u.map fprime
    some (npAdd
      (npSub ((u.drop 1).take (u.length - 2))
             (smul ((1/2) * dt_dx)
                   (npSub ((u.drop 2).map flux.func) ((u.take (u.length - 2)).map flux.func))))
      (npMul (smul ((1/2) * dt_dx2) ((a.drop 1).take (a.length - 2)))
             (npAdd (npSub ((u.drop 2).map flux.func)
                           (smul 2 (((u.drop 1).take (u.length - 2)).map flux.func)))
                    ((u.take (u.length - 2)).map flux.func))))

/-- schemes.py, `LW_FV(u, dt, dx, flux)`: local speeds
`a = fprime((u[1:] + u[:-1]) * 0.5)`, interface fluxes
`fluxes = 0.5 * (flux(u[:-1]) + flux(u[1:]) - a * dt_dx * (flux(u[1:]) - flux(u[:-1])))`,
then `u[1:-1] - dt_dx * (fluxes[1:] - fluxes[:-1])`. -/
def LW_FV (u : List ℚ) (dt dx : ℚ) (flux : Function) : Option (List ℚ) :=
  match flux.prime with
  | none => none
  | some fprime =>
    let dt_dx := dt / dx
    let a := (smul (1/2) (npAdd (u.drop 1) (u.take (u.length - 1)))).map fprime
    let fluxes := smul (1/2)
      (npSub (npAdd ((u.take (u.length - 1)).map flux.func) ((u.drop 1).map flux.func))
             (npMul (smul dt_dx a)
                    (npSub ((u.drop 1).map flux.func) ((u.take (u.length - 1)).map flux.func))))
    some (npSub ((u.drop 1).take (u.length - 2))
                (smul dt_dx (npSub (fluxes.drop 1) (fluxes.take (fluxes.length - 1)))))

/-- tests.py, `RiemannProblem.__init__(ul, ur, x0)`: `sigma` starts as
`None` and is set by `initSigma`. -/
structure RiemannProblem where
  ul : ℚ
  ur : ℚ
  x0 : ℚ
  sigma : Option ℚ

/-- tests.py, `RiemannProblem.getShockSpeed(f)`: the Rankine-Hugoniot
quotient `(f(ur) - f(ul)) / (ur - ul)`; Python raises `ZeroDivisionError`
when the divisor `ur - ul` is zero, embedded as `none`. -/
def getShockSpeed (rp : RiemannProblem) (f : ℚ → ℚ) : Option ℚ :=
  if rp.ur - rp.ul = 0 then none
  else some ((f rp.ur - f rp.ul) / (rp.ur - rp.ul))

/-- tests.py, `RiemannProblem.initSigma(f)`: stores `getShockSpeed(f)` in
`sigma` and returns the problem. -/
def initSigma (rp : RiemannProblem) (f : ℚ → ℚ) : Option RiemannProblem :=
  (getShockSpeed rp f).map (fun s => { rp with sigma := some s })

/-- tests.py, `RiemannProblem.isShock(fprime)`:
`(ul > ur) and (fprime(ul) > sigma) and (fprime(ur) < sigma)`. Python's
`and` short-circuits, so when `ul > ur` fails the result is `False` even if
`sigma` is still `None`; when `ul > ur` holds and `sigma` is `None` the
comparison raises `TypeError`, embedded as `none`. -/
def isShock (rp : RiemannProblem) (fprime : ℚ → ℚ) : Option Bool :=
  if rp.ul > rp.ur then
    match rp.sigma with
    | none => none
    | some s => some (decide (fprime rp.ul > s) && decide (fprime rp.ur < s))
  else some false

/-- Numpy boolean-times-scalar arithmetic: `True` counts as `1`, `False`
as `0`. -/
def boolInd (p : Prop) [Decidable p] : ℚ := if p then 1 else 0

/-- tests.py, `RiemannProblem.solve(f, fprime)`: if `isShock(fprime)` then
`u(t,x) = (ratio < sigma) * ul + (ratio > sigma) * ur`, else
`u(t,x) = (ratio < fprime(ul)) * ul + 0 + (ratio > fprime(ur)) * ur`,
with `ratio = (x - x0) / t`. -/
def solve (rp : RiemannProblem) (f fprime : ℚ → ℚ) : Option (ℚ → ℚ → ℚ) :=
  match isShock rp fprime with
  | none => none
  | some b =>
    if b then
      match rp.sigma with
      | none => none
      | some s =>
        some (fun t x =>
          let ratio := (x - rp.x0) / t
          boolInd (ratio < s) * rp.ul + boolInd (ratio > s) * rp.ur)
    else
      some (fun t x =>
        let ratio := (x - rp.x0) / t
        boolInd (ratio < fprime rp.ul) * rp.ul + 0 + boolInd (ratio > fprime rp.ur) * rp.ur)

/-- tests.py, `getLinearFlux(scalar)`: wraps `x * scalar` with data
`prime = constant scalar` and `isLinear = True`. -/
def getLinearFlux (scalar : ℚ) : Function :=
  { func := fun x => x * scalar
    prime := some (fun _ => scalar)
    isLinear := true
    isQuadratic := false
    canBeRiemannProblem := false
    ul := none
    ur := none
    x0 := none }

/-- tests.py: `flux_identity = getLinearFlux(1.0)`. -/
def flux_identity : Function := getLinearFlux 1

/-- tests.py, `square_half(x) = x * x * 0.5`. -/
def square_half (x : ℚ) : ℚ := x * x * (1/2)

/-- tests.py: `flux_square_half` wraps `square_half` with
`prime = flux_identity`, `isQuadratic = True`. -/
def flux_square_half : Function :=
  { func := square_half
    prime := some flux_identity.func
    isLinear := false
    isQuadratic := true
    canBeRiemannProblem := false
    ul := none
    ur := none
    x0 := none }

/-- A concrete cubic flux, used only as a test input to the schemes. -/
def cubeFlux : Function :=
  { func := fun x => x ^ 3
    prime := some (fun x => 3 * x ^ 2)
    isLinear := false
    isQuadratic := false
    canBeRiemannProblem := false
    ul := none
    ur := none
    x0 := none }

/-- tests.py, `getExactSolution(initial, flux)`: for a linear flux returns
`(t, x) ↦ initial(x - flux(1) * t)`; for a Riemann-eligible initial
condition and quadratic flux builds the `RiemannProblem` from the `ul`,
`ur`, `x0` data entries, initialises `sigma` and solves; otherwise `None`.
A missing dictionary entry (Python `.get` returning `None`, which makes the
subsequent computation raise) is embedded as `none`. -/
def getExactSolution (initial flux : Function) : Option (ℚ → ℚ → ℚ) :=
  if flux.isLinear then
    some (fun t x => initial.func (x - flux.func 1 * t))
  else if initial.canBeRiemannProblem && flux.isQuadratic then
    match initial.ul, initial.ur, initial.x0, flux.prime with
    | some ul, some ur, some x0, some fp =>
      match initSigma (RiemannProblem.mk ul ur x0 none) flux.func with
      | none => none
      | some rp => solve rp flux.func fp
    | _, _, _, _ => none
  else none

/-! ## Helper lemmas: lengths and element-wise values of the four schemes -/

/-- Length of the difference-form Lax-Friedrichs step. -/
theorem LF_FD_length (u : List ℚ) (dt dx : ℚ) (fl : Function) :
    (LF_FD u dt dx fl).length = u.length - 2 := by
  simp [LF_FD, LF_FD_centered, npSub, npAdd, smul, List.length_zipWith]

/-- Length of the volume-form Lax-Friedrichs step. -/
theorem LF_FV_length (u : List ℚ) (dt dx : ℚ) (fl : Function) :
    (LF_FV u dt dx fl).length = u.length - 2 := by
  simp [LF_FV, npSub, npAdd, smul, List.length_zipWith]
  omega

/-- Length of the difference-form Lax-Wendroff step (derivative present). -/
theorem LW_FD_length (u : List ℚ) (dt dx : ℚ) (fl : Function) (fp : ℚ → ℚ)
    (hp : fl.prime = some fp) :
    (LW_FD u dt dx fl).map List.length = some (u.length - 2) := by
  simp [LW_FD, hp, npSub, npAdd, npMul, smul, List.length_zipWith]
  omega

/-- Length of the volume-form Lax-Wendroff step (derivative present). -/
theorem LW_FV_length (u : List ℚ) (dt dx : ℚ) (fl : Function) (fp : ℚ → ℚ)
    (hp : fl.prime = some fp) :
    (LW_FV u dt dx fl).map List.length = some (u.length - 2) := by
  simp [LW_FV, hp, npSub, npAdd, npMul, smul, List.length_zipWith]
  omega

/-- Entry `i` of the difference-form Lax-Friedrichs step, for an interior
index. -/
theorem LF_FD_getElem (u : List ℚ) (dt dx : ℚ) (fl : Function) (i : ℕ)
    (h : i + 2 < u.length) :
    (LF_FD u dt dx fl)[i]? =
      some ((1/2) * (u[i + 2] + u[i])
        - (1/2) * (dt / dx) * (fl.func u[i + 2] - fl.func u[i])) := by
  have h2 : 2 + i = i + 2 := by omega
  have hlen : i < (LF_FD u dt dx fl).length := by rw [LF_FD_length]; omega
  rw [List.getElem?_eq_getElem hlen]
  simp [LF_FD, LF_FD_centered, npSub, npAdd, smul, List.getElem_zipWith,
    List.getElem_drop, List.getElem_take, h2]

/-- Entry `i` of the volume-form Lax-Friedrichs step, written with the
interface fluxes exactly as the code groups them. -/
theorem LF_FV_getElem (u : List ℚ) (dt dx : ℚ) (fl : Function) (i : ℕ)
    (h : i + 2 < u.length) :
    (LF_FV u dt dx fl)[i]? =
      some (u[i + 1] - (dt / dx) *
        ((1/2) * (fl.func u[i + 1] + fl.func u[i + 2] - (dx / dt) * (u[i + 2] - u[i + 1]))
          - (1/2) * (fl.func u[i] + fl.func u[i + 1] - (dx / dt) * (u[i + 1] - u[i])))) := by
  have h1 : 1 + i = i + 1 := by omega
  have h2 : 1 + i + 1 = i + 2 := by omega
  have h3 : i + 1 + 1 = i + 2 := by omega
  have hlen : i < (LF_FV u dt dx fl).length := by rw [LF_FV_length]; omega
  rw [List.getElem?_eq_getElem hlen]
  simp [LF_FV, npSub, npAdd, smul, List.getElem_zipWith,
    List.getElem_drop, List.getElem_take, List.length_zipWith, h1, h2, h3]

/-- Entry `i` of the difference-form Lax-Wendroff step: the local speed is
`fp` at the centre stencil point `u[i + 1]` (the code computes
`a = fprime(u)` and slices `a[1:-1]`). -/
theorem LW_FD_getElem (u : List ℚ) (dt dx : ℚ) (fl : Function) (fp : ℚ → ℚ)
    (hp : fl.prime = some fp) (i : ℕ) (h : i + 2 < u.length) :
    (LW_FD u dt dx fl).bind (fun l => l[i]?) =
      some (u[i + 1] - (1/2) * (dt / dx) * (fl.func u[i + 2] - fl.func u[i])
        + (1/2) * ((dt / dx) * (dt / dx)) * fp u[i + 1]
          * (fl.func u[i + 2] - 2 * fl.func u[i + 1] + fl.func u[i])) := by
  have h1 : 1 + i = i + 1 := by omega
  have h2 : 2 + i = i + 2 := by omega
  have hlen : i < ((npAdd
      (npSub ((u.drop 1).take (u.length - 2))
             (smul ((1/2) * (dt/dx))
                   (npSub ((u.drop 2).map fl.func) ((u.take (u.length - 2)).map fl.func))))
      (npMul (smul ((1/2) * ((dt/dx) * (dt/dx))) (((u.map fp).drop 1).take ((u.map fp).length - 2)))
             (npAdd (npSub ((u.drop 2).map fl.func)
                           (smul 2 (((u.drop 1).take (u.length - 2)).map fl.func)))
                    ((u.take (u.length - 2)).map fl.func))))).length := by
    simp [npSub, npAdd, npMul, smul, List.length_zipWith]
    omega
  simp only [LW_FD, hp, Option.some_bind]
  rw [List.getElem?_eq_getElem hlen]
  simp [npSub, npAdd, npMul, smul, List.getElem_zipWith, List.getElem_drop,
    List.getElem_take, List.getElem_map, List.length_zipWith, h1, h2]

/-- Two replicated lists are equal when lengths and values agree. -/
theorem replicate_eq_replicate_of (m n : ℕ) (a b : ℚ) (hmn : m = n) (hab : a = b) :
    List.replicate m a = List.replicate n b := by rw [hmn, hab]

/-- The difference-form Lax-Friedrichs step maps a constant array to a
constant array. -/
theorem LF_FD_const (n : ℕ) (c dt dx : ℚ) (fl : Function) :
    LF_FD (List.replicate n c) dt dx fl = List.replicate (n - 2) c := by
  simp only [LF_FD, LF_FD_centered, npSub, npAdd, smul, List.length_replicate,
    List.take_replicate, List.drop_replicate, List.map_replicate, List.zipWith_replicate]
  exact replicate_eq_replicate_of _ _ _ _ (by omega) (by ring)

/-- The volume-form Lax-Friedrichs step maps a constant array to a constant
array. -/
theorem LF_FV_const (n : ℕ) (c dt dx : ℚ) (fl : Function) :
    LF_FV (List.replicate n c) dt dx fl = List.replicate (n - 2) c := by
  simp only [LF_FV, npSub, npAdd, smul, List.length_replicate,
    List.take_replicate, List.drop_replicate, List.map_replicate, List.zipWith_replicate]
  exact replicate_eq_replicate_of _ _ _ _ (by omega) (by ring)

/-- The difference-form Lax-Wendroff step maps a constant array to a
constant array. -/
theorem LW_FD_const (n : ℕ) (c dt dx : ℚ) (fl : Function) (fp : ℚ → ℚ)
    (hp : fl.prime = some fp) :
    LW_FD (List.replicate n c) dt dx fl = some (List.replicate (n - 2) c) := by
  simp only [LW_FD, hp, npSub, npAdd, npMul, smul, List.length_replicate,
    List.take_replicate, List.drop_replicate, List.map_replicate, List.zipWith_replicate]
  exact congrArg some (replicate_eq_replicate_of _ _ _ _ (by omega) (by ring))

/-- The volume-form Lax-Wendroff step maps a constant array to a constant
array. -/
theorem LW_FV_const (n : ℕ) (c dt dx : ℚ) (fl : Function) (fp : ℚ → ℚ)
    (hp : fl.prime = some fp) :
    LW_FV (List.replicate n c) dt dx fl = some (List.replicate (n - 2) c) := by
  simp only [LW_FV, hp, npSub, npAdd, npMul, smul, List.length_replicate,
    List.take_replicate, List.drop_replicate, List.map_replicate, List.zipWith_replicate]
  exact congrArg some (replicate_eq_replicate_of _ _ _ _ (by omega) (by ring))

/-- Out-of-range entries of the difference-form Lax-Friedrichs step. -/
theorem LF_FD_getElem_none (u : List ℚ) (dt dx : ℚ) (fl : Function) (i : ℕ)
    (h : ¬ i + 2 < u.length) : (LF_FD u dt dx fl)[i]? = none := by
  apply List.getElem?_eq_none
  rw [LF_FD_length]; omega

/-- Out-of-range entries of the volume-form Lax-Friedrichs step. -/
theorem LF_FV_getElem_none (u : List ℚ) (dt dx : ℚ) (fl : Function) (i : ℕ)
    (h : ¬ i + 2 < u.length) : (LF_FV u dt dx fl)[i]? = none := by
  apply List.getElem?_eq_none
  rw [LF_FV_length]; omega

/-- Subtracting the zero-scaled copy of an at-least-as-long array is the
identity. -/
theorem npSub_smul_zero (A : List ℚ) : ∀ B : List ℚ, A.length ≤ B.length →
    npSub A (smul 0 B) = A := by
  induction A with
  | nil => intro B h; simp [npSub]
  | cons a A ih =>
    intro B h
    cases B with
    | nil => simp at h
    | cons b B =>
      show List.zipWith (· - ·) (a :: A) (List.map (fun x => (0:ℚ) * x) (b :: B)) = a :: A
      rw [List.map_cons, List.zipWith_cons_cons]
      congr 1
      · ring
      · exact ih B (by simpa using h)

/-! ## Claims -/

/-- C1 counterexample: the claim computes the local speed as
`fprime((u[i+2] + u[i]) / 2)`. At `u = [0, 0, 2]`, `dt = dx = 1`, flux
`u ^ 3` with derivative `3 * u ^ 2`, the code returns `-4` at index 0
(its speed is `fprime(u[1]) = 0`), while the claimed formula, whose speed
is `fprime((2 + 0) / 2) = 3`, evaluates to `8`. -/
theorem LW_FD_midpoint_speed_cex :
    (LW_FD [(0:ℚ), 0, 2] 1 1 cubeFlux).bind (fun l => l[0]?) = some (-4 : ℚ)
    ∧ ((0:ℚ) - (1/2) * (1/1) * (cubeFlux.func 2 - cubeFlux.func 0)
        + (1/2) * ((1:ℚ)/1) ^ 2 * (3 * (((2:ℚ) + 0) / 2) ^ 2)
          * (cubeFlux.func 2 - 2 * cubeFlux.func 0 + cubeFlux.func 0)) = 8
    ∧ some (-4 : ℚ) ≠ some (8 : ℚ) := by
  refine ⟨?_, ?_, by norm_num⟩
  · norm_num [LW_FD, npAdd, npSub, npMul, smul, cubeFlux]
  · norm_num [cubeFlux]

/-- C1 (amended): the difference-form Lax-Wendroff step computes the local
characteristic speed at interior index `i` as the analytic derivative at the
centre stencil point, `a = fprime(u[i+1])` (not at the average of the two
outer points), and returns
`u[i+1] - 0.5 * (dt/dx) * (f(u[i+2]) - f(u[i]))
 + 0.5 * (dt/dx)^2 * a * (f(u[i+2]) - 2 * f(u[i+1]) + f(u[i]))`. -/
theorem LW_FD_pointwise (u : List ℚ) (dt dx : ℚ) (fl : Function) (fp : ℚ → ℚ)
    (hp : fl.prime = some fp) (i : ℕ) (h : i + 2 < u.length) :
    (LW_FD u dt dx fl).bind (fun l => l[i]?) =
      some (u[i + 1] - (1/2) * (dt / dx) * (fl.func u[i + 2] - fl.func u[i])
        + (1/2) * (dt / dx) ^ 2 * fp u[i + 1]
          * (fl.func u[i + 2] - 2 * fl.func u[i + 1] + fl.func u[i])) := by
  rw [LW_FD_getElem u dt dx fl fp hp i h]
  exact congrArg some (by ring)

/-- C1 witness: the amended formula at `u = [1, 2, 4]`, `dt = 1`, `dx = 2`,
cubic flux; entry 0 evaluates to `239 / 4`. -/
theorem LW_FD_pointwise_wit :
    (LW_FD [(1:ℚ), 2, 4] 1 2 cubeFlux).bind (fun l => l[0]?) = some (239/4 : ℚ) := by
  rw [LW_FD_pointwise [(1:ℚ), 2, 4] 1 2 cubeFlux (fun x => 3 * x ^ 2) rfl 0 (by norm_num)]
  norm_num [cubeFlux]

/-- C2 counterexample: for `ul = 2 > ur = 1`, `f(u) = u^2/2` the jump is a
shock with `sigma = 3/2`; at `t = 1`, `x = 3/2` the ratio equals `sigma`,
the claim's `else` branch demands `ur = 1`, but the solution returned by
the code evaluates to `0` there. -/
theorem solve_shock_boundary_cex :
    ((initSigma (RiemannProblem.mk 2 1 0 none) square_half).bind
        (fun rp => solve rp square_half flux_identity.func)).map
      (fun w => w 1 (3/2)) = some (0:ℚ)
    ∧ (initSigma (RiemannProblem.mk 2 1 0 none) square_half).bind
        (fun rp => isShock rp flux_identity.func) = some true
    ∧ ¬ (((3:ℚ)/2 - 0) / 1 < 3/2)
    ∧ (0 : ℚ) ≠ 1 := by
  refine ⟨?_, ?_, by norm_num, by norm_num⟩
  · norm_num [initSigma, getShockSpeed, solve, isShock, square_half,
      flux_identity, getLinearFlux, boolInd]
  · norm_num [initSigma, getShockSpeed, isShock, square_half,
      flux_identity, getLinearFlux]

/-- C2 (amended): for a problem whose shock speed has been initialized and
which satisfies the shock classification (`ul > ur`, `fprime(ul) > sigma`,
`fprime(ur) < sigma`), the solution returned by `solve` is `ul` where
`(x - x0)/t < sigma`, `ur` where `(x - x0)/t > sigma`, and `0` on the
boundary ray `(x - x0)/t = sigma`. -/
theorem solve_shock_cases (ul ur x0 : ℚ) (f fp : ℚ → ℚ) (s : ℚ)
    (hinit : initSigma ⟨ul, ur, x0, none⟩ f = some ⟨ul, ur, x0, some s⟩)
    (h1 : ul > ur) (h2 : fp ul > s) (h3 : fp ur < s)
    (w : ℚ → ℚ → ℚ) (hw : solve ⟨ul, ur, x0, some s⟩ f fp = some w)
    (t x : ℚ) (ht : 0 < t) :
    w t x = if (x - x0) / t < s then ul
            else if (x - x0) / t > s then ur else 0 := by
  have hsh : isShock ⟨ul, ur, x0, some s⟩ fp = some true := by
    simp [isShock, h1, h2, h3]
  unfold solve at hw
  rw [hsh] at hw
  simp at hw
  rw [← hw]
  rcases lt_trichotomy ((x - x0) / t) s with hc | hc | hc
  · simp [boolInd, hc, if_pos hc, lt_asymm hc]
  · simp [boolInd, hc]
  · simp [boolInd, hc, lt_asymm hc, if_neg (lt_asymm hc)]

/-- C2 witness: the spec's own shock example `ul = 1`, `ur = 0`,
`f(u) = u^2/2`, `sigma = 1/2`; at `t = 1`, `x = 0` the solution is `1`. -/
theorem solve_shock_cases_wit :
    (solve ⟨(1:ℚ), 0, 0, some (1/2)⟩ square_half flux_identity.func).map
      (fun w => w 1 0) = some (1:ℚ) := by
  cases hw : solve ⟨(1:ℚ), 0, 0, some (1/2)⟩ square_half flux_identity.func with
  | none =>
    norm_num [solve, isShock, boolInd, flux_identity, getLinearFlux] at hw
    exact absurd hw (Option.some_ne_none _)
  | some w =>
    have h := solve_shock_cases 1 0 0 square_half flux_identity.func (1/2)
      (by norm_num [initSigma, getShockSpeed, square_half])
      (by norm_num) (by norm_num [flux_identity, getLinearFlux])
      (by norm_num [flux_identity, getLinearFlux]) w hw 1 0 (by norm_num)
    simp [h]

/-- C3: the volume-form Lax-Friedrichs step forms interface fluxes
`F = 0.5 * (f(a) + f(b)) - 0.5 * (dx/dt) * (b - a)` (correction scaled by
`dx/dt`) and returns `u[i+1] - (dt/dx) * (F(u[i+1], u[i+2]) - F(u[i], u[i+1]))`
at interior index `i`. -/
theorem LF_FV_flux_form (u : List ℚ) (dt dx : ℚ) (fl : Function) (i : ℕ)
    (h : i + 2 < u.length) (hdt : 0 < dt) (hdx : 0 < dx) :
    (LF_FV u dt dx fl)[i]? =
      some (u[i + 1] - (dt / dx) *
        (((1/2) * (fl.func u[i + 1] + fl.func u[i + 2])
            - (1/2) * (dx / dt) * (u[i + 2] - u[i + 1]))
         - ((1/2) * (fl.func u[i] + fl.func u[i + 1])
            - (1/2) * (dx / dt) * (u[i + 1] - u[i])))) := by
  rw [LF_FV_getElem u dt dx fl i h]
  exact congrArg some (by ring)

/-- C3 witness: at `u = [0, 1, 3]`, `dt = dx = 1`, `f(u) = u^2/2`, entry 0
evaluates to `-3/4`. -/
theorem LF_FV_flux_form_wit :
    (LF_FV [(0:ℚ), 1, 3] 1 1 flux_square_half)[0]? = some (-3/4 : ℚ) := by
  rw [LF_FV_flux_form [(0:ℚ), 1, 3] 1 1 flux_square_half 0 (by norm_num)
    (by norm_num) (by norm_num)]
  norm_num [flux_square_half, square_half]

/-- C4 counterexample: no failure conditions exist in the code. With an
array of length 2 the difference-form Lax-Friedrichs step returns the empty
array (instead of an `InsufficientStencilWidth` failure), and with `dt = 0`
it returns an ordinary result (instead of a `DegenerateDiscretization`
failure). -/
theorem scheme_no_failfast_cex :
    LF_FD [(1:ℚ), 2] 1 1 flux_square_half = []
    ∧ LF_FD [(0:ℚ), 0, 0] 0 1 flux_square_half = [0] := by
  constructor
  · norm_num [LF_FD, LF_FD_centered, npAdd, npSub, smul]
  · norm_num [LF_FD, LF_FD_centered, npAdd, npSub, smul, flux_square_half, square_half]

/-- C4 (amended): the schemes perform no input validation and raise no
condition: for arrays shorter than 3 each of the four schemes returns the
empty array, and with `dt = 0` the difference-form Lax-Friedrichs step
returns the plain centered averages `0.5 * (u[2:] + u[:-2])` as a normal
result. -/
theorem scheme_no_validation (u : List ℚ) (dt dx : ℚ) (fl : Function) (fp : ℚ → ℚ)
    (hp : fl.prime = some fp) :
    (u.length < 3 →
      LF_FD u dt dx fl = [] ∧ LF_FV u dt dx fl = []
      ∧ LW_FD u dt dx fl = some [] ∧ LW_FV u dt dx fl = some [])
    ∧ LF_FD u 0 dx fl = smul (1/2) (npAdd (u.drop 2) (u.take (u.length - 2))) := by
  constructor
  · intro hlen
    refine ⟨?_, ?_, ?_, ?_⟩
    · exact List.eq_nil_of_length_eq_zero (by rw [LF_FD_length]; omega)
    · exact List.eq_nil_of_length_eq_zero (by rw [LF_FV_length]; omega)
    · have hl := LW_FD_length u dt dx fl fp hp
      cases hw : LW_FD u dt dx fl with
      | none => rw [hw] at hl; simp at hl
      | some l =>
        rw [hw] at hl
        simp at hl
        rw [List.eq_nil_of_length_eq_zero (by omega : l.length = 0)]
    · have hl := LW_FV_length u dt dx fl fp hp
      cases hw : LW_FV u dt dx fl with
      | none => rw [hw] at hl; simp at hl
      | some l =>
        rw [hw] at hl
        simp at hl
        rw [List.eq_nil_of_length_eq_zero (by omega : l.length = 0)]
  · show npSub (smul (1/2) (npAdd (u.drop 2) (u.take (u.length - 2))))
        (smul ((1/2) * ((0:ℚ) / dx))
              (npSub ((u.drop 2).map fl.func) ((u.take (u.length - 2)).map fl.func))) = _
    rw [zero_div, mul_zero]
    apply npSub_smul_zero
    simp [npAdd, npSub, smul, List.length_zipWith]

/-- C4 witness: the amended behaviour at concrete inputs: a length-2 array
gives `[]` for both finite-volume forms, and `dt = 0` gives the centered
average for the difference form. -/
theorem scheme_no_validation_wit :
    LF_FD [(1:ℚ), 2] 1 1 flux_square_half = []
    ∧ LW_FV [(1:ℚ), 2] 1 1 flux_square_half = some []
    ∧ LF_FD [(5:ℚ), 7, 9] 0 1 flux_square_half
        = smul (1/2) (npAdd ([(5:ℚ), 7, 9].drop 2) ([(5:ℚ), 7, 9].take 1)) := by
  have h := scheme_no_validation [(1:ℚ), 2] 1 1 flux_square_half
    flux_identity.func rfl
  have h2 := scheme_no_validation [(5:ℚ), 7, 9] 1 1 flux_square_half
    flux_identity.func rfl
  exact ⟨(h.1 (by norm_num)).1, (h.1 (by norm_num)).2.2.2, by simpa using h2.2⟩

/-- C5: `getShockSpeed` returns the Rankine-Hugoniot speed
`(f(ur) - f(ul)) / (ur - ul)` whenever `ul ≠ ur`, and fails (Python
`ZeroDivisionError`, the `DegenerateJump` condition) whenever `ul = ur`. -/
theorem getShockSpeed_spec (f : ℚ → ℚ) (ul ur x0 : ℚ) (s : Option ℚ) :
    (ul ≠ ur →
      getShockSpeed ⟨ul, ur, x0, s⟩ f = some ((f ur - f ul) / (ur - ul)))
    ∧ (ul = ur → getShockSpeed ⟨ul, ur, x0, s⟩ f = none) := by
  constructor
  · intro h
    simp [getShockSpeed, sub_eq_zero, h.symm]
  · intro h
    subst h
    simp [getShockSpeed]

/-- C5 witness: for `f(u) = u^2/2`, `(ul, ur) = (1, 0)` gives speed `1/2`,
and `(3, 3)` fails. -/
theorem getShockSpeed_spec_wit :
    getShockSpeed ⟨(1:ℚ), 0, 0, none⟩ square_half = some (1/2 : ℚ)
    ∧ getShockSpeed ⟨(3:ℚ), 3, 0, none⟩ square_half = none := by
  constructor
  · rw [(getShockSpeed_spec square_half 1 0 0 none).1 (by norm_num)]
    norm_num [square_half]
  · exact (getShockSpeed_spec square_half 3 3 0 none).2 rfl

/-- C6 counterexample: for the non-convex flux `f(u) = -(u^2)/2` with
derivative `-u` and `ul = 0 < ur = 1` (not a shock, `sigma = -1/2`), at
`t = 1`, `x = -1/2` the ratio `-1/2` is below `fprime(ul) = 0`, so the
claim demands `u = ul = 0`; but `fprime(ur) = -1 < -1/2` too, the two
indicator regions overlap, and the code returns `ul + ur = 1`. -/
theorem solve_rarefaction_overlap_cex :
    ((initSigma (RiemannProblem.mk 0 1 0 none) (fun v => -(v * v * (1/2)))).bind
        (fun rp => solve rp (fun v => -(v * v * (1/2))) (fun v => -v))).map
      (fun w => w 1 (-(1/2))) = some (1:ℚ)
    ∧ ((-(1/2) : ℚ) - 0) / 1 < -(0:ℚ)
    ∧ (1 : ℚ) ≠ 0 := by
  refine ⟨?_, by norm_num, by norm_num⟩
  · norm_num [initSigma, getShockSpeed, solve, isShock, boolInd]

/-- C6 (amended): for a non-shock Riemann problem with initialized shock
speed whose derivative satisfies `fprime(ul) ≤ fprime(ur)`, the solution
returned by `solve` is `ul` where `(x - x0)/t < fprime(ul)`, `ur` where
`(x - x0)/t > fprime(ur)`, and identically `0` in the fan region
`fprime(ul) ≤ (x - x0)/t ≤ fprime(ur)`. (Without the monotonicity
hypothesis the two indicator regions can overlap and the code returns
`ul + ur` there.) -/
theorem solve_rarefaction_cases (ul ur x0 : ℚ) (f fp : ℚ → ℚ) (s : ℚ)
    (hinit : initSigma ⟨ul, ur, x0, none⟩ f = some ⟨ul, ur, x0, some s⟩)
    (hns : isShock ⟨ul, ur, x0, some s⟩ fp = some false)
    (hmono : fp ul ≤ fp ur)
    (w : ℚ → ℚ → ℚ) (hw : solve ⟨ul, ur, x0, some s⟩ f fp = some w)
    (t x : ℚ) (ht : 0 < t) :
    ((x - x0) / t < fp ul → w t x = ul)
    ∧ (fp ur < (x - x0) / t → w t x = ur)
    ∧ (fp ul ≤ (x - x0) / t → (x - x0) / t ≤ fp ur → w t x = 0) := by
  unfold solve at hw
  rw [hns] at hw
  simp at hw
  rw [← hw]
  refine ⟨fun hc => ?_, fun hc => ?_, fun hc1 hc2 => ?_⟩
  · have hnr : ¬ fp ur < (x - x0) / t := not_lt.mpr (le_trans hc.le hmono)
    simp [boolInd, hc, hnr]
  · have hnl : ¬ (x - x0) / t < fp ul := not_lt.mpr (le_trans hmono hc.le)
    simp [boolInd, hc, hnl]
  · simp [boolInd, not_lt.mpr hc1, not_lt.mpr hc2]

/-- C6 witness: the spec's rarefaction example `ul = 0`, `ur = 1`,
`f(u) = u^2/2`, `sigma = 1/2`; at `t = 1`, `x = -1` (ratio below
`fprime(ul) = 0`) the solution is `0`. -/
theorem solve_rarefaction_cases_wit :
    (solve ⟨(0:ℚ), 1, 0, some (1/2)⟩ square_half flux_identity.func).map
      (fun w => w 1 (-1)) = some (0:ℚ) := by
  cases hw : solve ⟨(0:ℚ), 1, 0, some (1/2)⟩ square_half flux_identity.func with
  | none =>
    norm_num [solve, isShock, boolInd, flux_identity, getLinearFlux] at hw
    exact absurd hw (Option.some_ne_none _)
  | some w =>
    have h := solve_rarefaction_cases 0 1 0 square_half flux_identity.func (1/2)
      (by norm_num [initSigma, getShockSpeed, square_half])
      (by norm_num [isShock])
      (by norm_num [flux_identity, getLinearFlux]) w hw 1 (-1) (by norm_num)
    have h0 := h.1 (by norm_num [flux_identity, getLinearFlux])
    simp [h0]

/-- C7: for every flux marked `isLinear`, the exact solution produced by
`getExactSolution` is `u(t, x) = u0(x - a * t)` with constant speed
`a = flux(1)`. -/
theorem getExactSolution_linear (initial flux : Function)
    (hlin : flux.isLinear = true) (t x : ℚ) :
    (getExactSolution initial flux).map (fun w => w t x) =
      some (initial.func (x - flux.func 1 * t)) := by
  simp [getExactSolution, hlin]

/-- C7 witness: `getLinearFlux (5/2)` with the identity initial condition:
at `t = 2`, `x = 3` the exact solution is `3 - (5/2) * 2 = -2`. -/
theorem getExactSolution_linear_wit :
    (getExactSolution flux_identity (getLinearFlux (5/2))).map
      (fun w => w 2 3) = some (-2 : ℚ) := by
  rw [getExactSolution_linear flux_identity (getLinearFlux (5/2)) rfl 2 3]
  norm_num [flux_identity, getLinearFlux]

/-- C8: every scheme applied to an array of length at least 3 (with nonzero
`dt`, `dx` and, for the Lax-Wendroff forms, a derivative) returns an array
of length exactly `len(u) - 2`. -/
theorem scheme_length_invariant (u : List ℚ) (dt dx : ℚ) (fl : Function)
    (fp : ℚ → ℚ) (h3 : 3 ≤ u.length) (hdt : dt ≠ 0) (hdx : dx ≠ 0)
    (hp : fl.prime = some fp) :
    (LF_FD u dt dx fl).length = u.length - 2
    ∧ (LF_FV u dt dx fl).length = u.length - 2
    ∧ (LW_FD u dt dx fl).map List.length = some (u.length - 2)
    ∧ (LW_FV u dt dx fl).map List.length = some (u.length - 2) :=
  ⟨LF_FD_length u dt dx fl, LF_FV_length u dt dx fl,
   LW_FD_length u dt dx fl fp hp, LW_FV_length u dt dx fl fp hp⟩

/-- C8 witness: a length-4 array gives length-2 results for all four
schemes. -/
theorem scheme_length_invariant_wit :
    (LF_FD [(1:ℚ), 2, 3, 4] 1 1 flux_square_half).length = 2
    ∧ (LF_FV [(1:ℚ), 2, 3, 4] 1 1 flux_square_half).length = 2
    ∧ (LW_FD [(1:ℚ), 2, 3, 4] 1 1 flux_square_half).map List.length = some 2
    ∧ (LW_FV [(1:ℚ), 2, 3, 4] 1 1 flux_square_half).map List.length = some 2 := by
  have h := scheme_length_invariant [(1:ℚ), 2, 3, 4] 1 1 flux_square_half
    flux_identity.func (by norm_num) (by norm_num) (by norm_num) rfl
  simpa using h

/-- C9: each of the four schemes maps a constant array `u ≡ c` of length
`n ≥ 3` to the constant array `c` of length `n - 2`, for any flux. -/
theorem scheme_constant_state (n : ℕ) (c dt dx : ℚ) (fl : Function)
    (fp : ℚ → ℚ) (h3 : 3 ≤ n) (hdt : 0 < dt) (hdx : 0 < dx)
    (hp : fl.prime = some fp) :
    LF_FD (List.replicate n c) dt dx fl = List.replicate (n - 2) c
    ∧ LF_FV (List.replicate n c) dt dx fl = List.replicate (n - 2) c
    ∧ LW_FD (List.replicate n c) dt dx fl = some (List.replicate (n - 2) c)
    ∧ LW_FV (List.replicate n c) dt dx fl = some (List.replicate (n - 2) c) :=
  ⟨LF_FD_const n c dt dx fl, LF_FV_const n c dt dx fl,
   LW_FD_const n c dt dx fl fp hp, LW_FV_const n c dt dx fl fp hp⟩

/-- C9 witness: the constant array `[7, 7, 7]` steps to `[7]` under all
four schemes. -/
theorem scheme_constant_state_wit :
    LF_FD [(7:ℚ), 7, 7] 1 1 flux_square_half = [7]
    ∧ LF_FV [(7:ℚ), 7, 7] 1 1 flux_square_half = [7]
    ∧ LW_FD [(7:ℚ), 7, 7] 1 1 flux_square_half = some [7]
    ∧ LW_FV [(7:ℚ), 7, 7] 1 1 flux_square_half = some [7] := by
  have h := scheme_constant_state 3 7 1 1 flux_square_half
    flux_identity.func (by norm_num) (by norm_num) (by norm_num) rfl
  simpa [List.replicate_succ] using h

/-- C10: over exact rational arithmetic, for every array, every nonzero
`dt` and `dx` and every flux, the difference-form and volume-form
Lax-Friedrichs steps return exactly equal arrays: the telescoped
volume-form update simplifies to the centered formula
`0.5 * (u[i+2] + u[i]) - 0.5 * (dt/dx) * (f(u[i+2]) - f(u[i]))`, which is
the definition of the difference form. -/
theorem LF_FD_eq_LF_FV (u : List ℚ) (dt dx : ℚ) (fl : Function)
    (hdt : dt ≠ 0) (hdx : dx ≠ 0) : LF_FD u dt dx fl = LF_FV u dt dx fl := by
  apply List.ext_getElem?
  intro i
  by_cases h : i + 2 < u.length
  · rw [LF_FD_getElem u dt dx fl i h, LF_FV_getElem u dt dx fl i h]
    refine congrArg some ?_
    field_simp
    ring
  · rw [LF_FD_getElem_none u dt dx fl i h, LF_FV_getElem_none u dt dx fl i h]

/-- C10 witness: the two Lax-Friedrichs forms agree on `[0, 1, 3, 6]` with
`dt = 1`, `dx = 2`. -/
theorem LF_FD_eq_LF_FV_wit :
    LF_FD [(0:ℚ), 1, 3, 6] 1 2 flux_square_half
      = LF_FV [(0:ℚ), 1, 3, 6] 1 2 flux_square_half :=
  LF_FD_eq_LF_FV [(0:ℚ), 1, 3, 6] 1 2 flux_square_half
    (by norm_num) (by norm_num)
